import Mathlib

/-!
Verification of the Clipper-Academy clip-extraction pipeline.

Shallow embedding of the core algorithms of the repository:
* `app/services/transcription.py` — chunk planning, parallel chunk
  transcription, merge of per-chunk results (`TranscriptionService`);
* `app/services/video_processing.py` — probe-metadata extraction,
  aspect-ratio crop computation, clip rendering with duration bounds
  (`VideoProcessingService`);
* `app/services/auto_clipper.py` — the orchestrator loop that accepts
  candidate segments, numbers clips, and fans out captioning jobs
  (`AutoClipperService`);
* `app/services/zapcap.py` — the caption-status polling loop
  (`ZapCapService.wait_for_completion`).

Python floats are modelled as rationals (ℚ), Python ints as ℤ/ℕ, raised
exceptions as `Except`/`Option` error values, and the external backends
(Whisper, ffmpeg/ffprobe, the ZapCap REST API) as explicit inputs holding
the values those calls would return.  File-system side effects that a
claim mentions (chunk temp-file deletion) are made explicit as returned
data.  `asyncio.gather(..., return_exceptions=True)` delivers, for each
task, either its return value or its exception; that list is modelled as
a `List (Except ε α)` in task-launch order.
-/

namespace Clipper

/-! ## Transcription data model (`transcription.py`)

`transcribe_chunk_sync` returns a dict with keys `chunk_index`,
`segments`, `words`, `text`, `success` (lines 156-225).  Segment and word
dicts carry offset-adjusted timestamps and text. -/

/-- A transcript segment dict: `start`, `end` (named `stop` here since
`end` is reserved), `text`. -/
structure Segment where
  start : ℚ
  stop : ℚ
  text : String
deriving DecidableEq

/-- A word-level timestamp dict: `start`, `end`, `word`. -/
structure Word where
  start : ℚ
  stop : ℚ
  word : String
deriving DecidableEq

/-- Result dict of `transcribe_chunk_sync` for one chunk. -/
structure ChunkResult where
  chunk_index : ℕ
  segments : List Segment
  words : List Word
  text : String
  success : Bool
deriving DecidableEq

/-- The merged transcript dict built at `transcription.py:334-339`:
keys `text`, `segments`, `words`, `language`. -/
structure Transcript where
  text : String
  segments : List Segment
  words : List Word
  language : String
deriving DecidableEq

/-- `transcribe_chunks_parallel` gathers one `Except` per chunk task (an
exception or a `ChunkResult`).  A chunk counts as successful when its
task returned a dict with `success=True` (`transcription.py:259`). -/
def chunkSucceeded : Except String ChunkResult → Bool
  | .error _ => false
  | .ok r => r.success

/-- The `successful_results` filter of `transcribe_chunks_parallel`
(`transcription.py:255-265`): exceptions are dropped, results with
`success=False` are dropped, order of the remaining results is the
task-launch order. -/
def successfulResults (results : List (Except String ChunkResult)) : List ChunkResult :=
  results.filterMap fun r =>
    match r with
    | .error _ => none
    | .ok c => if c.success then some c else none

/-- Stable insertion of a chunk result into a list sorted by
`chunk_index`; `insertByIdx` places `r` after every earlier element whose
index is strictly smaller and before the first element whose index is
`≥ r.chunk_index` seen from the right fold in `sortByChunkIdx`. -/
def insertByIdx (r : ChunkResult) : List ChunkResult → List ChunkResult
  | [] => [r]
  | s :: rest =>
    if r.chunk_index ≤ s.chunk_index then r :: s :: rest
    else s :: insertByIdx r rest

/-- Model of `chunk_results.sort(key=lambda x: x.get('chunk_index', 0))`
(`transcription.py:311`): a stable sort by ascending `chunk_index`
(Python `list.sort` is stable), written as structural insertion sort so
that it evaluates by kernel reduction. -/
def sortByChunkIdx : List ChunkResult → List ChunkResult
  | [] => []
  | r :: rest => insertByIdx r (sortByChunkIdx rest)

/-- One iteration of the merge loop at `transcription.py:313-322`: extend
the accumulated segments and words, and append the chunk text with a
single separating space, skipping falsy (empty) chunk texts and avoiding
a leading separator. -/
def mergeStep (acc : List Segment × List Word × String) (r : ChunkResult) :
    List Segment × List Word × String :=
  (acc.1 ++ r.segments, acc.2.1 ++ r.words,
    if r.text ≠ "" then (if acc.2.2 ≠ "" then acc.2.2 ++ " " ++ r.text else r.text)
    else acc.2.2)

/-- The merge of successful chunk results (`transcription.py:306-342`,
sort + accumulation loop + final dict). -/
def mergeChunkResults (chunk_results : List ChunkResult) : Transcript :=
  { text := ((sortByChunkIdx chunk_results).foldl mergeStep ([], [], "")).2.2
    segments := ((sortByChunkIdx chunk_results).foldl mergeStep ([], [], "")).1
    words := ((sortByChunkIdx chunk_results).foldl mergeStep ([], [], "")).2.1
    language := "en" }

/-- Outcome of the multi-chunk branch of `transcribe_audio_with_timestamps`:
the returned transcript (or the raised `TranscriptionError`, as `.error`)
together with the list of chunk temp files the function deleted before
exiting. -/
structure MultiChunkOutcome where
  result : Except String Transcript
  deleted : List String

/-- The multi-chunk branch of `transcribe_audio_with_timestamps`
(`transcription.py:299-342`).  Inputs: the original audio path, the chunk
file paths produced by splitting (assumed to exist on disk), and the
gathered per-chunk task outcomes.  If no chunk succeeded the code raises
`TranscriptionError("All audio chunks failed to transcribe")` at line 304
— before the cleanup loop of lines 324-332 — so no chunk file is deleted
on that path; on the merge path every chunk path different from the
original audio path is deleted. -/
def transcribe_audio_with_timestamps (audio_path : String) (chunk_paths : List String)
    (chunk_results : List (Except String ChunkResult)) : MultiChunkOutcome :=
  let successes := successfulResults chunk_results
  if successes.isEmpty then
    { result := .error "All audio chunks failed to transcribe", deleted := [] }
  else
    { result := .ok (mergeChunkResults successes)
      deleted := chunk_paths.filter (fun p => p ≠ audio_path) }

/-- Specification-side description of the text merge: non-empty texts
joined by exactly one space, no leading or trailing separator. -/
def joinSpaceSep : List String → String
  | [] => ""
  | [t] => t
  | t :: ts => t ++ " " ++ joinSpaceSep ts

/-! ## Chunk planning (`split_audio_for_transcription`, `transcription.py:94-154`)

Inputs: the probed file size in bytes, the settings limit
`max_transcription_chunk_size` (default `20 * 1024 * 1024`,
`settings.py:35`), and the probed total duration.  The chunk file paths
and the ffmpeg invocations are external side effects; the returned
start offsets and durations are modelled exactly. -/

/-- A chunk dict of `split_audio_for_transcription`: keys
`start_offset` and `duration` (the `path` key is an external artifact). -/
structure AudioChunk where
  start_offset : ℚ
  duration : ℚ
deriving DecidableEq

/-- `num_chunks = math.ceil(file_size / max_size_bytes)`
(`transcription.py:116`): true division followed by ceiling. -/
def numChunksFor (file_size max_size : ℕ) : ℕ :=
  (⌈(file_size : ℚ) / (max_size : ℚ)⌉).toNat

/-- `split_audio_for_transcription` (`transcription.py:103-150`): one
whole-file chunk when the file fits in the size limit, otherwise
`num_chunks` time slices of equal planned width `total/num_chunks`,
chunk `i` spanning `[i*w, min((i+1)*w, total))`. -/
def split_audio_for_transcription (file_size max_size : ℕ) (total_duration : ℚ) :
    List AudioChunk :=
  if file_size ≤ max_size then
    [{ start_offset := 0, duration := total_duration }]
  else
    (List.range (numChunksFor file_size max_size)).map fun (i : ℕ) =>
      { start_offset := (i : ℚ) * (total_duration / (numChunksFor file_size max_size : ℚ))
        duration :=
          min (((i : ℚ) + 1) * (total_duration / (numChunksFor file_size max_size : ℚ)))
              total_duration
          - (i : ℚ) * (total_duration / (numChunksFor file_size max_size : ℚ)) }

/-- Spec-side view: the left endpoint of chunk `i` of a chunk plan
(meaningful for `i < length`; out-of-range indices read a zero chunk). -/
def chunkStart (cs : List AudioChunk) (i : ℕ) : ℚ :=
  (cs.getD i { start_offset := 0, duration := 0 }).start_offset

/-- Spec-side view: the right endpoint of chunk `i` (start plus
duration, the interval being half-open). -/
def chunkStop (cs : List AudioChunk) (i : ℕ) : ℚ :=
  (cs.getD i { start_offset := 0, duration := 0 }).start_offset +
    (cs.getD i { start_offset := 0, duration := 0 }).duration

/-! ## Aspect-ratio crop computation (`calculate_crop_filter`,
`video_processing.py:146-192`) -/

/-- The slice of the `video_info` dict read by `calculate_crop_filter`:
`width`, `height` (Python ints) and the dict's `aspect_ratio` value
(field named `aspect` here). -/
structure CropInfo where
  width : ℤ
  height : ℤ
  aspect : ℚ
deriving DecidableEq

/-- Structured reading of the returned FFmpeg filter string:
`"scale=trunc(iw/2)*2:trunc(ih/2)*2"`, `"scale=W:H"`, or
`"crop=CW:CH:CX:CY,scale=SW:SH"`. -/
inductive CropFilter
  | evenScale
  | scaleTo (w h : ℤ)
  | cropThenScale (cw ch cx cy sw sh : ℤ)
deriving DecidableEq

/-- Python `int()` applied to a float: truncation toward zero. -/
def pyInt (q : ℚ) : ℤ := if 0 ≤ q then ⌊q⌋ else ⌈q⌉

/-- The target-label dispatch of `calculate_crop_filter`
(`video_processing.py:160-170`): target ratio and canvas per label. -/
def parseTarget (t : String) : Option (ℚ × ℤ × ℤ) :=
  if t = "9:16" then some (9/16, 1080, 1920)
  else if t = "16:9" then some (16/9, 1920, 1080)
  else if t = "1:1" then some (1, 1080, 1080)
  else none

/-- `calculate_crop_filter` (`video_processing.py:146-192`).  Python `//`
is floor division, modelled by `Int.fdiv`; Python `int()` on a float is
`pyInt`. -/
def calculate_crop_filter (mi : CropInfo) (target : String) : Except String CropFilter :=
  if target = "original" then .ok .evenScale
  else
    match parseTarget target with
    | none => .error ("Unsupported aspect " ++ target)
    | some (tr, tw, th) =>
      if |mi.aspect - tr| < 1/100 then .ok (.scaleTo tw th)
      else if mi.aspect > tr then
        .ok (.cropThenScale (pyInt ((mi.height : ℚ) * tr)) mi.height
              ((mi.width - pyInt ((mi.height : ℚ) * tr)).fdiv 2) 0 tw th)
      else
        .ok (.cropThenScale mi.width (pyInt ((mi.width : ℚ) / tr)) 0
              ((mi.height - pyInt ((mi.width : ℚ) / tr)).fdiv 2) tw th)

/-! ## Clip rendering with duration bounds (`create_video_clip`,
`video_processing.py:194-267`) -/

/-- The typed `VideoProcessingError` causes of `create_video_clip`
that the claims distinguish. -/
inductive ClipError
  | durationBelowMin
  | durationAboveMax
  | encoderFailed
deriving DecidableEq

/-- `create_video_clip` (`video_processing.py:211-260`): validate
`end_time - start_time` against the settings bounds (defaults
`min_clip_duration = 10`, `max_clip_duration = 120`, `settings.py:33-34`)
BEFORE probing the source and invoking ffmpeg.  The probe + ffmpeg +
output-file check (lines 220-258) are abstracted as `encoder`, returning
the output path on success and `none` on a nonzero exit or a missing
output file. -/
def create_video_clip (min_d max_d : ℚ) (start_t end_t : ℚ)
    (encoder : ℚ → ℚ → Option String) : Except ClipError String :=
  if end_t - start_t < min_d then .error .durationBelowMin
  else if end_t - start_t > max_d then .error .durationAboveMax
  else
    match encoder start_t end_t with
    | some out => .ok out
    | none => .error .encoderFailed

/-! ## Orchestrator clip loop (`process_video`, `auto_clipper.py:292-331`) -/

/-- A clip candidate produced by `analyze_clip_segments`, after its
`start_time`/`end_time` labels have been converted to seconds by
`time_to_seconds` (the fields the loop reads). -/
structure Candidate where
  title : String
  start_s : ℚ
  stop_s : ℚ
deriving DecidableEq

/-- The `clip_info` dict built at `auto_clipper.py:315-326` (fields the
claims are about). -/
structure ClipInfo where
  clip_number : ℕ
  title : String
  duration : ℚ
deriving DecidableEq

/-- The duration guard of the loop (`auto_clipper.py:301`):
`clip_duration < min or clip_duration > max` means the candidate is
skipped. -/
def durationOutOfRange (min_d max_d dur : ℚ) : Bool :=
  dur < min_d || dur > max_d

/-- The `for i, segment in enumerate(clip_segments)` loop
(`auto_clipper.py:295-328`), starting from index `i`: a skipped candidate
advances the index without emitting a clip; an accepted candidate yields
a clip numbered `i + 1`.  Rendering is assumed to succeed for accepted
candidates (a rendering exception aborts the whole job and creates no
clip list at all). -/
def createClipsFrom (min_d max_d : ℚ) : ℕ → List Candidate → List ClipInfo
  | _, [] => []
  | i, c :: rest =>
    if durationOutOfRange min_d max_d (c.stop_s - c.start_s) then
      createClipsFrom min_d max_d (i + 1) rest
    else
      { clip_number := i + 1, title := c.title, duration := c.stop_s - c.start_s }
        :: createClipsFrom min_d max_d (i + 1) rest

/-- The whole clip-creation loop (enumeration starts at 0). -/
def createClips (min_d max_d : ℚ) (segments : List Candidate) : List ClipInfo :=
  createClipsFrom min_d max_d 0 segments

/-! ## Caption fan-out (`process_clips_with_zapcap_parallel`,
`auto_clipper.py:149-243`, and `zapcap.py`) -/

/-- The dict returned by `ZapCapService.process_video` on success
(`zapcap.py:344-352`); `success` is its `success` key. -/
structure ZapResult where
  success : Bool
  video_id : String
  task_id : String
  video_name : String
  result_file_path : String
  processing_time : ℚ
deriving DecidableEq

/-- A clip's entry in the returned `zapcap_results` mapping: either an
`{'error': msg}` dict or the repackaged success dict
(`auto_clipper.py:225-240`). -/
inductive ZapEntry
  | failure (msg : String)
  | done (video_id task_id captioned_video_name captioned_video_path : String)
      (processing_time : ℚ)
deriving DecidableEq

/-- The per-clip conversion of `auto_clipper.py:222-240`: an exception
becomes `{'error': str(exc)}`; a dict with `success=True` is repackaged;
anything else becomes `{'error': 'Invalid response from ZapCap'}`. -/
def zapEntryOf : Except String ZapResult → ZapEntry
  | .error e => .failure e
  | .ok r =>
    if r.success then
      .done r.video_id r.task_id r.video_name r.result_file_path r.processing_time
    else .failure "Invalid response from ZapCap"

/-- Python dict assignment `d[k] = v` on an insertion-ordered dict,
modelled on an association list: replace in place if the key is present,
else append. -/
def dictInsert (d : List (ℕ × ZapEntry)) (k : ℕ) (v : ZapEntry) : List (ℕ × ZapEntry) :=
  if d.any (fun p => p.1 == k) then
    d.map (fun p => if p.1 == k then (k, v) else p)
  else d ++ [(k, v)]

/-- The aggregation loop of `process_clips_with_zapcap_parallel`
(`auto_clipper.py:218-243`).  Input: one `(clip_number, task outcome)`
pair per clip, in launch order, where the outcome is the value or the
exception delivered by `asyncio.gather(..., return_exceptions=True)`
(line 213); exceptions therefore arrive as data and the loop itself
raises nothing. -/
def process_clips_with_zapcap_parallel (clips : List (ℕ × Except String ZapResult)) :
    List (ℕ × ZapEntry) :=
  clips.foldl (fun acc c => dictInsert acc c.1 (zapEntryOf c.2)) []

/-- A created clip after the ZapCap update loop (`auto_clipper.py:339-346`):
the original fields plus the attached `zapcap_result`/`zapcap_error`
(combined in one optional `ZapEntry`, whose constructor distinguishes the
two keys). -/
structure ClipWithZap where
  clip_number : ℕ
  title : String
  duration : ℚ
  zapcap : Option ZapEntry
deriving DecidableEq

/-- The update loop (`auto_clipper.py:339-346`): each created clip looks
up its own `clip_number` in the fan-out mapping and attaches the entry if
present; `clip_number` itself is never modified. -/
def updateClipsWithZapcap (clips : List ClipInfo) (zr : List (ℕ × ZapEntry)) :
    List ClipWithZap :=
  clips.map fun c =>
    { clip_number := c.clip_number, title := c.title, duration := c.duration,
      zapcap := (zr.find? (fun p => p.1 == c.clip_number)).map (fun p => p.2) }

/-! ## Caption status polling (`wait_for_completion`, `zapcap.py:266-291`) -/

/-- The slice of the status dict the loop reads: `status` and the
optional `error` message. -/
structure StatusData where
  status : String
  errMsg : Option String
deriving DecidableEq

/-- How one invocation of `wait_for_completion` ends: return of the
status dict on `completed`, a raised `ZapCapError` on `failed`, or the
raised timeout `ZapCapError`. -/
inductive PollOutcome
  | finished (s : StatusData)
  | failedTask (msg : String)
  | timedOut
deriving DecidableEq

/-- The statuses of the `elif` arm at `zapcap.py:282` — the only arm
that checks the wall-clock timeout. -/
def inProgressStatuses : List String := ["processing", "pending", "transcribing"]

/-- Step-indexed run of the `while True` loop of `wait_for_completion`
(`zapcap.py:271-291`).  `responses k` is the status dict the k-th
`check_caption_status` call returns; `elapsed` is the wall-clock time at
that check, advancing by `check_interval` per sleep (the loop sleeps
`check_interval` between polls, defaults `max_wait_time = 600`,
`check_interval = 5`).  `fuel` bounds how many polls we unroll; `none`
means the loop is still running after `fuel` polls. -/
def waitRun (responses : ℕ → StatusData) (max_wait check_interval : ℕ) :
    ℕ → ℕ → ℕ → Option PollOutcome
  | 0, _, _ => none
  | fuel + 1, poll, elapsed =>
    if (responses poll).status = "completed" then some (.finished (responses poll))
    else if (responses poll).status = "failed" then
      some (.failedTask ((responses poll).errMsg.getD "Unknown error"))
    else if inProgressStatuses.contains (responses poll).status then
      if elapsed > max_wait then some .timedOut
      else waitRun responses max_wait check_interval fuel (poll + 1) (elapsed + check_interval)
    else
      waitRun responses max_wait check_interval fuel (poll + 1) (elapsed + check_interval)

/-! ## Probe metadata (`get_video_info`, `video_processing.py:64-121`) -/

/-- The slice of an ffprobe stream dict that `get_video_info` reads
(`r_frame_rate` is consumed via Python `eval` and not modelled; it does
not affect the claims). -/
structure ProbeStream where
  codec_type : String
  width : Option ℤ
  height : Option ℤ
  codec_name : Option String
deriving DecidableEq

/-- The slice of the ffprobe `format` dict that `get_video_info` reads. -/
structure ProbeFormat where
  duration : Option ℚ
  bit_rate : Option ℤ
  size : Option ℤ
deriving DecidableEq

/-- A parsed ffprobe JSON document. -/
structure ProbeOutput where
  streams : List ProbeStream
  format : ProbeFormat
deriving DecidableEq

/-- The `video_info` dict built at `video_processing.py:101-111`
(minus `fps`, see `ProbeStream`); `aspect` models the `aspect_ratio`
key. -/
structure VideoInfo where
  duration : ℚ
  width : ℤ
  height : ℤ
  aspect : ℚ
  codec : String
  bitrate : ℤ
  has_audio : Bool
  file_size : ℤ
deriving DecidableEq

/-- `get_video_info` on a parsed probe document
(`video_processing.py:85-114`): the first stream with
`codec_type == 'video'` is the video stream; with none the code raises
`VideoProcessingError` (line 95); missing `width`/`height` default to
1920/1080 (lines 98-99); `aspect_ratio` is `width/height` guarded by
`height > 0`, else `16/9` (line 105). -/
def get_video_info (p : ProbeOutput) : Except String VideoInfo :=
  match p.streams.find? (fun s => s.codec_type == "video") with
  | none => .error "No video stream found in file"
  | some vs =>
    .ok { duration := p.format.duration.getD 0
          width := vs.width.getD 1920
          height := vs.height.getD 1080
          aspect :=
            if vs.height.getD 1080 > 0 then
              ((vs.width.getD 1920 : ℤ) : ℚ) / ((vs.height.getD 1080 : ℤ) : ℚ)
            else 16/9
          codec := vs.codec_name.getD "unknown"
          bitrate := p.format.bit_rate.getD 0
          has_audio := p.streams.any (fun s => s.codec_type == "audio")
          file_size := p.format.size.getD 0 }

/-! ## Concrete example inputs used by the witnesses below -/

/-- Three gathered chunk-task outcomes: chunks 1 and 0 succeeded (listed
out of index order, as parallel completion allows), one task raised. -/
def exampleChunkResults : List (Except String ChunkResult) :=
  [.ok { chunk_index := 1, segments := [], words := [], text := "world", success := true },
   .error "network error",
   .ok { chunk_index := 0, segments := [], words := [], text := "hello", success := true }]

/-- A probe document with a single video stream that carries no
dimension fields at all. -/
def exampleProbe : ProbeOutput :=
  { streams := [{ codec_type := "video", width := none, height := none, codec_name := none }]
    format := { duration := none, bit_rate := none, size := none } }

/-- Three clips sent to the caption fan-out where clip 2's backend call
raised and clips 1 and 3 succeeded. -/
def exampleZapClips : List (ℕ × Except String ZapResult) :=
  [(1, .ok { success := true, video_id := "v1", task_id := "t1", video_name := "c1.mp4",
             result_file_path := "results/c1.mp4", processing_time := 12 }),
   (2, .error "zapcap upload failed"),
   (3, .ok { success := true, video_id := "v3", task_id := "t3", video_name := "c3.mp4",
             result_file_path := "results/c3.mp4", processing_time := 9 })]

end Clipper

/-! Helper lemmas about the transcription merge. -/

namespace Clipper

theorem insertByIdx_perm (r : ChunkResult) (l : List ChunkResult) :
    (insertByIdx r l).Perm (r :: l) := by
  induction l with
  | nil => simp [insertByIdx]
  | cons s rest ih =>
    by_cases h : r.chunk_index ≤ s.chunk_index
    · simp [insertByIdx, h]
    · simp only [insertByIdx, if_neg h]
      exact ((ih.cons s).trans (List.Perm.swap r s rest))

theorem sortByChunkIdx_perm (l : List ChunkResult) :
    (sortByChunkIdx l).Perm l := by
  induction l with
  | nil => simp [sortByChunkIdx]
  | cons r rest ih =>
    exact (insertByIdx_perm r (sortByChunkIdx rest)).trans (ih.cons r)

theorem pairwise_insertByIdx (r : ChunkResult) (l : List ChunkResult)
    (h : l.Pairwise (fun a b => a.chunk_index ≤ b.chunk_index)) :
    (insertByIdx r l).Pairwise (fun a b => a.chunk_index ≤ b.chunk_index) := by
  induction l with
  | nil => simp [insertByIdx]
  | cons s rest ih =>
    rcases List.pairwise_cons.mp h with ⟨hs, hrest⟩
    by_cases hle : r.chunk_index ≤ s.chunk_index
    · simp only [insertByIdx, if_pos hle]
      refine List.pairwise_cons.mpr ⟨?_, h⟩
      intro b hb
      rcases List.mem_cons.mp hb with rfl | hbm
      · exact hle
      · exact le_trans hle (hs _ hbm)
    · simp only [insertByIdx, if_neg hle]
      refine List.pairwise_cons.mpr ⟨?_, ih hrest⟩
      intro b hb
      have hmem : b ∈ r :: rest := (insertByIdx_perm r rest).mem_iff.mp hb
      rcases List.mem_cons.mp hmem with rfl | hbm
      · omega
      · exact hs _ hbm

theorem sortByChunkIdx_sorted (l : List ChunkResult) :
    (sortByChunkIdx l).Pairwise (fun a b => a.chunk_index ≤ b.chunk_index) := by
  induction l with
  | nil => simp [sortByChunkIdx]
  | cons r rest ih => exact pairwise_insertByIdx r _ ih

theorem append_ne_empty_of_right (a b : String) (hb : b ≠ "") : a ++ b ≠ "" := by
  intro h
  apply hb
  have hlen : (a ++ b).length = 0 := by rw [h]; rfl
  rw [String.length_append] at hlen
  have hb0 : b.length = 0 := by omega
  cases b with
  | mk data =>
    cases data with
    | nil => rfl
    | cons c cs => simp [String.length] at hb0

theorem joinSpaceSep_cons_cons (t u : String) (ts : List String) :
    joinSpaceSep (t :: u :: ts) = t ++ " " ++ joinSpaceSep (u :: ts) := rfl

/-- The text accumulation of the merge loop, started from a non-empty
accumulator, produces the accumulator followed by the space-joined
non-empty texts. -/
theorem foldl_textStep_of_ne (ts : List String) :
    ∀ acc : String, acc ≠ "" →
      (ts.foldl (fun acc s => if s ≠ "" then (if acc ≠ "" then acc ++ " " ++ s else s) else acc) acc)
        = joinSpaceSep (acc :: ts.filter (fun s => s ≠ "")) := by
  induction ts with
  | nil => intro acc _; rfl
  | cons t ts ih =>
    intro acc hacc
    by_cases ht : t = ""
    · subst ht
      simpa [hacc] using ih acc hacc
    · have hstep : (if t ≠ "" then (if acc ≠ "" then acc ++ " " ++ t else t) else acc)
          = acc ++ " " ++ t := by simp [ht, hacc]
      have hne : acc ++ " " ++ t ≠ "" := append_ne_empty_of_right _ _ ht
      have hfil : (t :: ts).filter (fun s => s ≠ "") = t :: ts.filter (fun s => s ≠ "") := by
        simp [List.filter_cons, ht]
      simp only [List.foldl_cons, hstep]
      rw [ih _ hne, hfil]
      generalize ts.filter (fun s => s ≠ "") = F
      cases F with
      | nil => rfl
      | cons u us => simp [joinSpaceSep_cons_cons, String.append_assoc]

/-- Starting from the empty accumulator (as the merge loop does), the
text accumulation equals the space-join of the non-empty texts. -/
theorem foldl_textStep (ts : List String) :
    (ts.foldl (fun acc s => if s ≠ "" then (if acc ≠ "" then acc ++ " " ++ s else s) else acc) "")
      = joinSpaceSep (ts.filter (fun s => s ≠ "")) := by
  induction ts with
  | nil => rfl
  | cons t ts ih =>
    by_cases ht : t = ""
    · subst ht; simpa using ih
    · have hstep : (if t ≠ "" then (if ("" : String) ≠ "" then "" ++ " " ++ t else t) else "") = t := by
        simp [ht]
      simp only [List.foldl_cons, hstep]
      rw [foldl_textStep_of_ne ts t ht]
      simp [List.filter_cons, ht]

/-- The merge loop, componentwise: the three accumulators evolve
independently, so the fold is the pair of list-concatenations together
with the text fold. -/
theorem foldl_mergeStep (l : List ChunkResult) :
    ∀ (a : List Segment) (b : List Word) (t : String),
      l.foldl mergeStep (a, b, t) =
        (a ++ (l.map (fun r => r.segments)).flatten,
         b ++ (l.map (fun r => r.words)).flatten,
         (l.map (fun r => r.text)).foldl
           (fun acc s => if s ≠ "" then (if acc ≠ "" then acc ++ " " ++ s else s) else acc) t) := by
  induction l with
  | nil => intro a b t; simp
  | cons r rest ih =>
    intro a b t
    simp only [List.foldl_cons, mergeStep, List.map_cons, List.flatten_cons]
    rw [ih]
    simp [List.append_assoc]

/-- Closed form of `mergeChunkResults`: sorted-by-index chunk texts are
space-joined (empties skipped), segments and words are concatenated in
the same order. -/
theorem mergeChunkResults_spec (l : List ChunkResult) :
    mergeChunkResults l =
      { text := joinSpaceSep (((sortByChunkIdx l).map (fun r => r.text)).filter (fun s => s ≠ "")),
        segments := ((sortByChunkIdx l).map (fun r => r.segments)).flatten,
        words := ((sortByChunkIdx l).map (fun r => r.words)).flatten,
        language := "en" } := by
  unfold mergeChunkResults
  rw [foldl_mergeStep]
  simp
  simpa using foldl_textStep ((sortByChunkIdx l).map (fun r => r.text))

/-! Helper lemmas about the chunk planner. -/

theorem split_length_of_big (file_size max_size : ℕ) (D : ℚ)
    (hbig : ¬ file_size ≤ max_size) :
    (split_audio_for_transcription file_size max_size D).length =
      numChunksFor file_size max_size := by
  simp [split_audio_for_transcription, if_neg hbig]

theorem split_getD_of_big (file_size max_size : ℕ) (D : ℚ)
    (hbig : ¬ file_size ≤ max_size) (i : ℕ)
    (hi : i < numChunksFor file_size max_size) :
    (split_audio_for_transcription file_size max_size D).getD i
        { start_offset := 0, duration := 0 } =
      { start_offset := (i : ℚ) * (D / (numChunksFor file_size max_size : ℚ))
        duration :=
          min (((i : ℚ) + 1) * (D / (numChunksFor file_size max_size : ℚ))) D
            - (i : ℚ) * (D / (numChunksFor file_size max_size : ℚ)) } := by
  simp only [split_audio_for_transcription, if_neg hbig]
  rw [List.getD_eq_getElem _ _ (by simpa using hi), List.getElem_map, List.getElem_range]

theorem numChunksFor_big (file_size max_size : ℕ) (hmax : 0 < max_size)
    (hbig : max_size < file_size) :
    ((numChunksFor file_size max_size : ℕ) : ℤ) = ⌈(file_size : ℚ) / (max_size : ℚ)⌉ ∧
    2 ≤ numChunksFor file_size max_size := by
  have hms : (0 : ℚ) < (max_size : ℚ) := by exact_mod_cast hmax
  have h1 : (1 : ℚ) < (file_size : ℚ) / (max_size : ℚ) := by
    rw [lt_div_iff₀ hms]
    simpa using (by exact_mod_cast hbig : (max_size : ℚ) < (file_size : ℚ))
  have h2 : (1 : ℤ) < ⌈(file_size : ℚ) / (max_size : ℚ)⌉ := by
    rw [Int.lt_ceil]
    exact_mod_cast h1
  have hcast : ((numChunksFor file_size max_size : ℕ) : ℤ) =
      ⌈(file_size : ℚ) / (max_size : ℚ)⌉ := Int.toNat_of_nonneg (by omega)
  refine ⟨hcast, ?_⟩
  have : (2 : ℤ) ≤ ((numChunksFor file_size max_size : ℕ) : ℤ) := by omega
  exact_mod_cast this

/-- Each planned right endpoint `(i+1) * (D/N)` stays at or below `D`
when `i < N` and `0 ≤ D`. -/
theorem planned_stop_le (N i : ℕ) (D : ℚ) (hD : 0 ≤ D) (hN : 0 < N) (hi : i < N) :
    ((i : ℚ) + 1) * (D / (N : ℚ)) ≤ D := by
  have hNq : (0 : ℚ) < (N : ℚ) := by exact_mod_cast hN
  have hc : (0 : ℚ) ≤ D / (N : ℚ) := div_nonneg hD (le_of_lt hNq)
  have hle : ((i : ℚ) + 1) ≤ (N : ℚ) := by exact_mod_cast hi
  calc ((i : ℚ) + 1) * (D / (N : ℚ)) ≤ (N : ℚ) * (D / (N : ℚ)) :=
        mul_le_mul_of_nonneg_right hle hc
    _ = D := by field_simp

/-- Every label `parseTarget` accepts is distinct from `"original"` and
carries a positive target ratio. -/
theorem parseTarget_cases (label : String) (tr : ℚ) (tw th : ℤ)
    (hparse : parseTarget label = some (tr, tw, th)) :
    label ≠ "original" ∧ 0 < tr := by
  unfold parseTarget at hparse
  split_ifs at hparse with h1 h2 h3
  · obtain ⟨htr, -, -⟩ : 9 / 16 = tr ∧ (1080 : ℤ) = tw ∧ (1920 : ℤ) = th := by
      simpa using hparse
    subst h1
    exact ⟨by decide, by rw [← htr]; norm_num⟩
  · obtain ⟨htr, -, -⟩ : 16 / 9 = tr ∧ (1920 : ℤ) = tw ∧ (1080 : ℤ) = th := by
      simpa using hparse
    subst h2
    exact ⟨by decide, by rw [← htr]; norm_num⟩
  · obtain ⟨htr, -, -⟩ : (1 : ℚ) = tr ∧ (1080 : ℤ) = tw ∧ (1080 : ℤ) = th := by
      simpa using hparse
    subst h3
    exact ⟨by decide, by rw [← htr]; norm_num⟩

/-- The aggregation fold over distinct clip numbers only appends, so it
equals a per-clip map: each clip's entry is a function of that clip's own
task outcome alone. -/
theorem foldl_dictInsert_eq_map (clips : List (ℕ × Except String ZapResult)) :
    ∀ acc : List (ℕ × ZapEntry),
      (clips.map Prod.fst).Nodup →
      (∀ k, k ∈ clips.map Prod.fst → k ∉ acc.map Prod.fst) →
      clips.foldl (fun acc c => dictInsert acc c.1 (zapEntryOf c.2)) acc =
        acc ++ clips.map (fun c => (c.1, zapEntryOf c.2)) := by
  induction clips with
  | nil => intro acc _ _; simp
  | cons c rest ih =>
    intro acc hnd hdis
    have hcnot : c.1 ∉ acc.map Prod.fst := hdis c.1 (by simp)
    have hany : acc.any (fun p => p.1 == c.1) = false := by
      rw [List.any_eq_false]
      intro p hp hEq
      rw [beq_iff_eq] at hEq
      exact hcnot (List.mem_map.mpr ⟨p, hp, hEq⟩)
    have hnd' : (c.1 :: rest.map Prod.fst).Nodup := by
      rw [List.map_cons] at hnd
      exact hnd
    obtain ⟨hhead, htail⟩ := List.nodup_cons.mp hnd'
    have hstep : dictInsert acc c.1 (zapEntryOf c.2) = acc ++ [(c.1, zapEntryOf c.2)] := by
      simp [dictInsert, hany]
    have hdis' : ∀ k, k ∈ rest.map Prod.fst →
        k ∉ (acc ++ [(c.1, zapEntryOf c.2)]).map Prod.fst := by
      intro k hk
      rw [List.map_append, List.mem_append]
      rintro (h | h)
      · exact hdis k (by rw [List.map_cons]; exact List.mem_cons_of_mem _ hk) h
      · simp at h
        exact hhead (h ▸ hk)
    calc (c :: rest).foldl (fun acc c => dictInsert acc c.1 (zapEntryOf c.2)) acc
        = rest.foldl (fun acc c => dictInsert acc c.1 (zapEntryOf c.2))
            (acc ++ [(c.1, zapEntryOf c.2)]) := by rw [List.foldl_cons, hstep]
      _ = (acc ++ [(c.1, zapEntryOf c.2)]) ++ rest.map (fun c => (c.1, zapEntryOf c.2)) :=
            ih _ htail hdis'
      _ = acc ++ (c :: rest).map (fun c => (c.1, zapEntryOf c.2)) := by
            simp [List.append_assoc]

/-- A backend that keeps answering an unrecognized status keeps the
poll loop running forever: the unknown-status arm re-polls without ever
checking the timeout. -/
theorem waitRun_unknown_forever (max_wait check_interval : ℕ) :
    ∀ fuel poll elapsed,
      waitRun (fun _ => { status := "mystery", errMsg := none }) max_wait check_interval
        fuel poll elapsed = none := by
  intro fuel
  induction fuel with
  | zero => intro _ _; rfl
  | succ n ih =>
    intro poll elapsed
    simp only [waitRun]
    rw [if_neg (by decide), if_neg (by decide), if_neg (by decide)]
    exact ih (poll + 1) (elapsed + check_interval)

/-- When every polled status is recognized, the loop reaches an outcome
once the remaining fuel covers the time left to the timeout. -/
theorem waitRun_terminates_aux (responses : ℕ → StatusData)
    (max_wait check_interval : ℕ)
    (hrec : ∀ k, (responses k).status = "completed" ∨ (responses k).status = "failed" ∨
      inProgressStatuses.contains (responses k).status = true) :
    ∀ fuel poll elapsed, max_wait < elapsed + fuel * check_interval →
      (waitRun responses max_wait check_interval (fuel + 1) poll elapsed).isSome = true := by
  intro fuel
  induction fuel with
  | zero =>
    intro poll elapsed hfuel
    by_cases h1 : (responses poll).status = "completed"
    · simp [waitRun, h1]
    by_cases h2 : (responses poll).status = "failed"
    · simp [waitRun, h1, h2]
    have h3 : inProgressStatuses.contains (responses poll).status = true := by
      rcases hrec poll with h | h | h
      · exact absurd h h1
      · exact absurd h h2
      · exact h
    have h3m : (responses poll).status ∈ inProgressStatuses := by simpa using h3
    have h4 : elapsed > max_wait := by omega
    simp [waitRun, h1, h2, h3m, h4]
  | succ n ih =>
    intro poll elapsed hfuel
    by_cases h1 : (responses poll).status = "completed"
    · simp [waitRun, h1]
    by_cases h2 : (responses poll).status = "failed"
    · simp [waitRun, h1, h2]
    have h3 : inProgressStatuses.contains (responses poll).status = true := by
      rcases hrec poll with h | h | h
      · exact absurd h h1
      · exact absurd h h2
      · exact h
    have h3m : (responses poll).status ∈ inProgressStatuses := by simpa using h3
    by_cases h4 : elapsed > max_wait
    · simp [waitRun, h1, h2, h3m, h4]
    · have hfuel' : max_wait < (elapsed + check_interval) + n * check_interval := by
        have hmul : elapsed + (n + 1) * check_interval =
            (elapsed + check_interval) + n * check_interval := by ring
        rw [hmul] at hfuel
        exact hfuel
      simp only [waitRun, if_neg h1, if_neg h2, if_pos h3, if_neg h4]
      exact ih (poll + 1) (elapsed + check_interval) hfuel'

/-- Every clip emitted by the orchestrator loop started at index `i`
comes from position `k` of the remaining candidate list, carries ordinal
`i + k + 1`, and copies that candidate's accepted title and duration. -/
theorem createClipsFrom_mem (min_d max_d : ℚ) :
    ∀ (l : List Candidate) (i : ℕ) (c : ClipInfo),
      c ∈ createClipsFrom min_d max_d i l →
      ∃ k, k < l.length ∧ c.clip_number = i + k + 1 ∧
        durationOutOfRange min_d max_d
          ((l.getD k { title := "", start_s := 0, stop_s := 0 }).stop_s -
           (l.getD k { title := "", start_s := 0, stop_s := 0 }).start_s) = false ∧
        c.title = (l.getD k { title := "", start_s := 0, stop_s := 0 }).title ∧
        c.duration = (l.getD k { title := "", start_s := 0, stop_s := 0 }).stop_s -
          (l.getD k { title := "", start_s := 0, stop_s := 0 }).start_s := by
  intro l
  induction l with
  | nil =>
    intro i c hc
    simp [createClipsFrom] at hc
  | cons a rest ih =>
    intro i c hc
    cases hg : durationOutOfRange min_d max_d (a.stop_s - a.start_s) with
    | true =>
      simp only [createClipsFrom, hg, if_true] at hc
      obtain ⟨k, hk, hnum, hgate, htitle, hdur⟩ := ih (i + 1) c hc
      refine ⟨k + 1, ?_, by omega, ?_, ?_, ?_⟩
      · simp only [List.length_cons]
        omega
      · rw [List.getD_cons_succ]
        exact hgate
      · rw [List.getD_cons_succ]
        exact htitle
      · rw [List.getD_cons_succ]
        exact hdur
    | false =>
      simp only [createClipsFrom, hg, Bool.false_eq_true, if_false, List.mem_cons] at hc
      rcases hc with rfl | htail
      · refine ⟨0, by simp, by simp, ?_, ?_, ?_⟩
        · rw [List.getD_cons_zero]
          exact hg
        · rw [List.getD_cons_zero]
        · rw [List.getD_cons_zero]
      · obtain ⟨k, hk, hnum, hgate, htitle, hdur⟩ := ih (i + 1) c htail
        refine ⟨k + 1, ?_, by omega, ?_, ?_, ?_⟩
        · simp only [List.length_cons]
          omega
        · rw [List.getD_cons_succ]
          exact hgate
        · rw [List.getD_cons_succ]
          exact htitle
        · rw [List.getD_cons_succ]
          exact hdur

/-- The ordinals of the emitted clips are strictly increasing. -/
theorem createClipsFrom_pairwise (min_d max_d : ℚ) :
    ∀ (l : List Candidate) (i : ℕ),
      ((createClipsFrom min_d max_d i l).map (fun c => c.clip_number)).Pairwise (· < ·) := by
  intro l
  induction l with
  | nil => intro i; simp [createClipsFrom]
  | cons a rest ih =>
    intro i
    cases hg : durationOutOfRange min_d max_d (a.stop_s - a.start_s) with
    | true =>
      simp only [createClipsFrom, hg, if_true]
      exact ih (i + 1)
    | false =>
      simp only [createClipsFrom, hg, Bool.false_eq_true, if_false, List.map_cons]
      refine List.pairwise_cons.mpr ⟨?_, ih (i + 1)⟩
      intro n hn
      obtain ⟨c, hc, rfl⟩ := List.mem_map.mp hn
      obtain ⟨k, -, hnum, -, -, -⟩ := createClipsFrom_mem min_d max_d rest (i + 1) c hc
      simp only [hnum]
      omega

/-- When no candidate is rejected, the ordinals are exactly the
contiguous range starting at `i + 1`. -/
theorem createClipsFrom_all_accepted (min_d max_d : ℚ) :
    ∀ (l : List Candidate) (i : ℕ),
      (∀ c ∈ l, durationOutOfRange min_d max_d (c.stop_s - c.start_s) = false) →
      (createClipsFrom min_d max_d i l).map (fun c => c.clip_number) =
        List.range' (i + 1) l.length := by
  intro l
  induction l with
  | nil => intro i _; simp [createClipsFrom]
  | cons a rest ih =>
    intro i hall
    have hg : durationOutOfRange min_d max_d (a.stop_s - a.start_s) = false :=
      hall a (by simp)
    simp only [createClipsFrom, hg, Bool.false_eq_true, if_false, List.map_cons,
      List.length_cons]
    rw [show List.range' (i + 1) (rest.length + 1) =
      (i + 1) :: List.range' (i + 2) rest.length from rfl]
    rw [ih (i + 1) (fun c hc => hall c (List.mem_cons_of_mem _ hc))]

/-- The caption-result update loop never touches `clip_number`. -/
theorem updateClips_numbers (clips : List ClipInfo) (zr : List (ℕ × ZapEntry)) :
    (updateClipsWithZapcap clips zr).map (fun c => c.clip_number) =
      clips.map (fun c => c.clip_number) := by
  unfold updateClipsWithZapcap
  rw [List.map_map]
  rfl

/-- Closed forms for the endpoints of a planned chunk in the multi-chunk
case: chunk `i` spans `[i * (D/N), (i+1) * (D/N))` once the `min`
collapses. -/
theorem split_endpoints_of_big (file_size max_size : ℕ) (D : ℚ)
    (hmax : 0 < max_size) (hD : 0 ≤ D) (hbig : max_size < file_size) (i : ℕ)
    (hi : i < numChunksFor file_size max_size) :
    chunkStart (split_audio_for_transcription file_size max_size D) i =
        (i : ℚ) * (D / (numChunksFor file_size max_size : ℚ)) ∧
    chunkStop (split_audio_for_transcription file_size max_size D) i =
        ((i : ℚ) + 1) * (D / (numChunksFor file_size max_size : ℚ)) := by
  have hbig' : ¬ file_size ≤ max_size := by omega
  have hN : 0 < numChunksFor file_size max_size := by
    have := (numChunksFor_big file_size max_size hmax hbig).2
    omega
  have hmin : min (((i : ℚ) + 1) * (D / (numChunksFor file_size max_size : ℚ))) D
      = ((i : ℚ) + 1) * (D / (numChunksFor file_size max_size : ℚ)) :=
    min_eq_left (planned_stop_le _ i D hD hN hi)
  unfold chunkStart chunkStop
  rw [split_getD_of_big file_size max_size D hbig' i hi]
  constructor
  · rfl
  · show (i : ℚ) * (D / (numChunksFor file_size max_size : ℚ)) + _ = _
    rw [hmin]
    ring

end Clipper

/-! ## Claim theorems -/

namespace Clipper

/-- Claim C1: merging chunk transcription results fails the whole job
with `TranscriptionError` only when zero chunks succeeded.  For every
gathered chunk-result list with at least one successful chunk,
`transcribe_audio_with_timestamps` returns (does not raise) a transcript
built only from the successful chunks' text/segments/words taken in
ascending chunk-index order; when every chunk failed it raises
`TranscriptionError("All audio chunks failed to transcribe")`. -/
theorem merge_raises_only_when_all_chunks_fail (audio_path : String)
    (chunk_paths : List String) (results : List (Except String ChunkResult)) :
    ((∃ r ∈ results, chunkSucceeded r = true) →
      (transcribe_audio_with_timestamps audio_path chunk_paths results).result =
          .ok (mergeChunkResults (successfulResults results)) ∧
      (sortByChunkIdx (successfulResults results)).Perm (successfulResults results) ∧
      (sortByChunkIdx (successfulResults results)).Pairwise
        (fun a b => a.chunk_index ≤ b.chunk_index) ∧
      (mergeChunkResults (successfulResults results)).text =
        joinSpaceSep (((sortByChunkIdx (successfulResults results)).map
          (fun r => r.text)).filter (fun s => s ≠ "")) ∧
      (mergeChunkResults (successfulResults results)).segments =
        ((sortByChunkIdx (successfulResults results)).map (fun r => r.segments)).flatten ∧
      (mergeChunkResults (successfulResults results)).words =
        ((sortByChunkIdx (successfulResults results)).map (fun r => r.words)).flatten) ∧
    ((∀ r ∈ results, chunkSucceeded r = false) →
      (transcribe_audio_with_timestamps audio_path chunk_paths results).result =
        .error "All audio chunks failed to transcribe") := by
  constructor
  · rintro ⟨r, hr, hsucc⟩
    have hc : ∃ c, c ∈ successfulResults results := by
      cases r with
      | error e => simp [chunkSucceeded] at hsucc
      | ok c =>
        refine ⟨c, List.mem_filterMap.mpr ⟨.ok c, hr, ?_⟩⟩
        simp [chunkSucceeded] at hsucc
        simp [hsucc]
    rcases hc with ⟨c, hc⟩
    have hE : (successfulResults results).isEmpty = false := by
      cases hS : successfulResults results with
      | nil => rw [hS] at hc; simp at hc
      | cons a l => rfl
    refine ⟨?_, sortByChunkIdx_perm _, sortByChunkIdx_sorted _, ?_, ?_, ?_⟩
    · simp [transcribe_audio_with_timestamps, hE]
    · simp [mergeChunkResults_spec]
    · simp [mergeChunkResults_spec]
    · simp [mergeChunkResults_spec]
  · intro hall
    have hnil : successfulResults results = [] := by
      apply List.filterMap_eq_nil_iff.mpr
      intro r hr
      cases r with
      | error e => rfl
      | ok c =>
        have := hall (.ok c) hr
        simp [chunkSucceeded] at this
        simp [this]
    simp [transcribe_audio_with_timestamps, hnil]

/-- Witness for C1 at a concrete input: three gathered outcomes, two
successes and one raised exception, so the merge path is taken. -/
theorem merge_raises_only_when_all_chunks_fail_witness :
    (transcribe_audio_with_timestamps "audio.wav" ["c0.wav", "c1.wav"]
        exampleChunkResults).result =
      .ok (mergeChunkResults (successfulResults exampleChunkResults)) :=
  ((merge_raises_only_when_all_chunks_fail "audio.wav" ["c0.wav", "c1.wav"]
      exampleChunkResults).1
    ⟨.ok { chunk_index := 1, segments := [], words := [], text := "world", success := true },
      by simp [exampleChunkResults], rfl⟩).1

/-- Claim C9: the merged transcript text equals the concatenation, in
ascending chunk-index order, of the non-empty chunk texts joined by
exactly one space each (no leading or trailing separator, empty texts
skipped); merged segments and words are the concatenations of the
per-chunk lists in the same order, preserving per-chunk internal order. -/
theorem merged_transcript_join_spec (l : List ChunkResult) :
    (mergeChunkResults l).text =
      joinSpaceSep (((sortByChunkIdx l).map (fun r => r.text)).filter (fun s => s ≠ "")) ∧
    (mergeChunkResults l).segments = ((sortByChunkIdx l).map (fun r => r.segments)).flatten ∧
    (mergeChunkResults l).words = ((sortByChunkIdx l).map (fun r => r.words)).flatten ∧
    (sortByChunkIdx l).Perm l ∧
    (sortByChunkIdx l).Pairwise (fun a b => a.chunk_index ≤ b.chunk_index) := by
  refine ⟨?_, ?_, ?_, sortByChunkIdx_perm l, sortByChunkIdx_sorted l⟩ <;>
    simp [mergeChunkResults_spec]

/-- Claim C8 (code bug): on the all-chunks-failed path the code raises
`TranscriptionError` at `transcription.py:304`, BEFORE the cleanup loop
of lines 324-332, so no chunk temp file is deleted on that exit path;
the cleanup runs only on the successful-merge path (third conjunct). -/
theorem chunk_cleanup_skipped_when_all_chunks_fail :
    (transcribe_audio_with_timestamps "audio.wav" ["data/temp/c0.wav", "data/temp/c1.wav"]
        [.error "network error",
         .ok { chunk_index := 1, segments := [], words := [], text := "", success := false }]).result
      = .error "All audio chunks failed to transcribe" ∧
    (transcribe_audio_with_timestamps "audio.wav" ["data/temp/c0.wav", "data/temp/c1.wav"]
        [.error "network error",
         .ok { chunk_index := 1, segments := [], words := [], text := "", success := false }]).deleted
      = [] ∧
    (transcribe_audio_with_timestamps "audio.wav" ["data/temp/c0.wav", "data/temp/c1.wav"]
        [.ok { chunk_index := 0, segments := [], words := [], text := "hi", success := true },
         .error "network error"]).deleted
      = ["data/temp/c0.wav", "data/temp/c1.wav"] :=
  ⟨rfl, rfl, rfl⟩

/-- Claim C2: chunk planning.  A file at most the size threshold yields
one chunk spanning the whole duration from offset 0.  A larger file
yields `numChunks = ceil(fileSize / maxChunkBytes)` chunks whose
intervals `[i*(D/N), (i+1)*(D/N))` are contiguous, non-overlapping,
ascending, and together cover `[0, D)` exactly. -/
theorem split_audio_chunk_plan (file_size max_size : ℕ) (D : ℚ)
    (hmax : 0 < max_size) (hD : 0 ≤ D) :
    (file_size ≤ max_size →
      split_audio_for_transcription file_size max_size D =
        [{ start_offset := 0, duration := D }]) ∧
    (max_size < file_size →
      (split_audio_for_transcription file_size max_size D).length =
          numChunksFor file_size max_size ∧
      ((numChunksFor file_size max_size : ℕ) : ℤ) =
          ⌈(file_size : ℚ) / (max_size : ℚ)⌉ ∧
      chunkStart (split_audio_for_transcription file_size max_size D) 0 = 0 ∧
      chunkStop (split_audio_for_transcription file_size max_size D)
          (numChunksFor file_size max_size - 1) = D ∧
      (∀ i, i < numChunksFor file_size max_size →
        chunkStart (split_audio_for_transcription file_size max_size D) i =
            (i : ℚ) * (D / (numChunksFor file_size max_size : ℚ)) ∧
        chunkStop (split_audio_for_transcription file_size max_size D) i =
            ((i : ℚ) + 1) * (D / (numChunksFor file_size max_size : ℚ))) ∧
      (∀ i, i + 1 < numChunksFor file_size max_size →
        chunkStop (split_audio_for_transcription file_size max_size D) i =
          chunkStart (split_audio_for_transcription file_size max_size D) (i + 1)) ∧
      (∀ i j, j < numChunksFor file_size max_size → i < j →
        chunkStop (split_audio_for_transcription file_size max_size D) i ≤
          chunkStart (split_audio_for_transcription file_size max_size D) j ∧
        (0 < D →
          chunkStart (split_audio_for_transcription file_size max_size D) i <
            chunkStart (split_audio_for_transcription file_size max_size D) j)) ∧
      (∀ t : ℚ, (0 ≤ t ∧ t < D) ↔
        ∃ i, i < numChunksFor file_size max_size ∧
          chunkStart (split_audio_for_transcription file_size max_size D) i ≤ t ∧
          t < chunkStop (split_audio_for_transcription file_size max_size D) i)) := by
  constructor
  · intro hle
    simp [split_audio_for_transcription, hle]
  · intro hbig
    have hbig' : ¬ file_size ≤ max_size := by omega
    obtain ⟨hcast, hN2⟩ := numChunksFor_big file_size max_size hmax hbig
    have hN : 0 < numChunksFor file_size max_size := by omega
    have hNq : (0 : ℚ) < ((numChunksFor file_size max_size : ℕ) : ℚ) := by exact_mod_cast hN
    have hc0 : (0 : ℚ) ≤ D / ((numChunksFor file_size max_size : ℕ) : ℚ) :=
      div_nonneg hD hNq.le
    have hend := fun i hi => split_endpoints_of_big file_size max_size D hmax hD hbig i hi
    refine ⟨split_length_of_big _ _ _ hbig', hcast, ?_, ?_, hend, ?_, ?_, ?_⟩
    · rw [(hend 0 hN).1]
      simp
    · have hlast : ((numChunksFor file_size max_size - 1 : ℕ) : ℚ) + 1 =
          ((numChunksFor file_size max_size : ℕ) : ℚ) := by
        have h1 : (1 : ℕ) ≤ numChunksFor file_size max_size := by omega
        push_cast [Nat.cast_sub h1]
        ring
      rw [(hend (numChunksFor file_size max_size - 1) (by omega)).2, hlast]
      field_simp
    · intro i hi
      rw [(hend i (by omega)).2, (hend (i + 1) hi).1]
      push_cast
      ring
    · intro i j hj hij
      constructor
      · rw [(hend i (by omega)).2, (hend j hj).1]
        have hle : ((i : ℚ) + 1) ≤ (j : ℚ) := by exact_mod_cast (show i + 1 ≤ j by omega)
        exact mul_le_mul_of_nonneg_right hle hc0
      · intro hDpos
        rw [(hend i (by omega)).1, (hend j hj).1]
        have hcpos : 0 < D / ((numChunksFor file_size max_size : ℕ) : ℚ) :=
          div_pos hDpos hNq
        exact mul_lt_mul_of_pos_right (by exact_mod_cast hij) hcpos
    · intro t
      constructor
      · rintro ⟨ht0, htD⟩
        have hDpos : 0 < D := lt_of_le_of_lt ht0 htD
        have hcpos : 0 < D / ((numChunksFor file_size max_size : ℕ) : ℚ) :=
          div_pos hDpos hNq
        have hK0 : 0 ≤ ⌊t / (D / ((numChunksFor file_size max_size : ℕ) : ℚ))⌋ :=
          Int.floor_nonneg.mpr (div_nonneg ht0 hcpos.le)
        have hKle : ((⌊t / (D / ((numChunksFor file_size max_size : ℕ) : ℚ))⌋ : ℤ) : ℚ) ≤
            t / (D / ((numChunksFor file_size max_size : ℕ) : ℚ)) := Int.floor_le _
        have hKlt : t / (D / ((numChunksFor file_size max_size : ℕ) : ℚ)) <
            (⌊t / (D / ((numChunksFor file_size max_size : ℕ) : ℚ))⌋ : ℚ) + 1 :=
          Int.lt_floor_add_one _
        have htN : t / (D / ((numChunksFor file_size max_size : ℕ) : ℚ)) <
            ((numChunksFor file_size max_size : ℕ) : ℚ) := by
          rw [div_lt_iff₀ hcpos]
          calc t < D := htD
            _ = ((numChunksFor file_size max_size : ℕ) : ℚ) *
                  (D / ((numChunksFor file_size max_size : ℕ) : ℚ)) := by field_simp
        have hKltN : ⌊t / (D / ((numChunksFor file_size max_size : ℕ) : ℚ))⌋ <
            ((numChunksFor file_size max_size : ℕ) : ℤ) := by
          exact_mod_cast lt_of_le_of_lt hKle htN
        have hiN : (⌊t / (D / ((numChunksFor file_size max_size : ℕ) : ℚ))⌋).toNat <
            numChunksFor file_size max_size := by omega
        have hcast' : (((⌊t / (D / ((numChunksFor file_size max_size : ℕ) : ℚ))⌋).toNat : ℚ)) =
            ((⌊t / (D / ((numChunksFor file_size max_size : ℕ) : ℚ))⌋ : ℤ) : ℚ) := by
          exact_mod_cast Int.toNat_of_nonneg hK0
        refine ⟨(⌊t / (D / ((numChunksFor file_size max_size : ℕ) : ℚ))⌋).toNat, hiN, ?_, ?_⟩
        · rw [(hend _ hiN).1, hcast']
          exact (le_div_iff₀ hcpos).mp hKle
        · rw [(hend _ hiN).2, hcast']
          exact (div_lt_iff₀ hcpos).mp hKlt
      · rintro ⟨i, hiN, h1, h2⟩
        rw [(hend i hiN).1] at h1
        rw [(hend i hiN).2] at h2
        refine ⟨le_trans (mul_nonneg (Nat.cast_nonneg i) hc0) h1, ?_⟩
        exact lt_of_lt_of_le h2 (planned_stop_le _ i D hD hN hiN)

/-- Witness for C2 at a concrete input: a 50-byte file against a 20-byte
limit and duration 30 yields ceil(50/20) = 3 chunks. -/
theorem split_audio_chunk_plan_witness :
    (split_audio_for_transcription 50 20 (30 : ℚ)).length = 3 := by
  have h := (split_audio_chunk_plan 50 20 (30 : ℚ) (by decide) (by decide)).2 (by decide)
  have hceil : ⌈((50 : ℕ) : ℚ) / ((20 : ℕ) : ℚ)⌉ = (3 : ℤ) := by
    rw [Int.ceil_eq_iff]
    constructor <;> norm_num
  have hN3 : numChunksFor 50 20 = 3 := by
    have hc := h.2.1
    rw [hceil] at hc
    exact_mod_cast hc
  rw [h.1, hN3]

/-- Claim C4: with the default bounds `min_clip_duration = 10` and
`max_clip_duration = 120`, a candidate of duration 9 or 121 seconds is
rejected without rendering — skipped by the orchestrator loop, and
`create_video_clip` raises `VideoProcessingError` whatever the encoder
would have returned — while durations of exactly 10 and exactly 120 are
accepted and rendered (the encoder outcome is returned). -/
theorem duration_bounds_inclusive (s e : ℚ) (title : String)
    (enc : ℚ → ℚ → Option String) :
    (e - s = 9 →
      create_video_clip 10 120 s e enc = .error .durationBelowMin ∧
      createClips 10 120 [{ title := title, start_s := s, stop_s := e }] = []) ∧
    (e - s = 121 →
      create_video_clip 10 120 s e enc = .error .durationAboveMax ∧
      createClips 10 120 [{ title := title, start_s := s, stop_s := e }] = []) ∧
    (e - s = 10 →
      create_video_clip 10 120 s e enc =
        (match enc s e with | some out => .ok out | none => .error .encoderFailed) ∧
      createClips 10 120 [{ title := title, start_s := s, stop_s := e }] =
        [{ clip_number := 1, title := title, duration := 10 }]) ∧
    (e - s = 120 →
      create_video_clip 10 120 s e enc =
        (match enc s e with | some out => .ok out | none => .error .encoderFailed) ∧
      createClips 10 120 [{ title := title, start_s := s, stop_s := e }] =
        [{ clip_number := 1, title := title, duration := 120 }]) := by
  refine ⟨fun hd => ⟨?_, ?_⟩, fun hd => ⟨?_, ?_⟩, fun hd => ⟨?_, ?_⟩, fun hd => ⟨?_, ?_⟩⟩ <;>
    simp only [create_video_clip, createClips, createClipsFrom, durationOutOfRange, hd] <;>
    norm_num

/-- Witness for C4 at concrete durations 9, 121, 10, 120. -/
theorem duration_bounds_inclusive_witness :
    create_video_clip 10 120 0 (9 : ℚ) (fun _ _ => none) = .error .durationBelowMin ∧
    create_video_clip 10 120 0 (121 : ℚ) (fun _ _ => none) = .error .durationAboveMax ∧
    createClips 10 120 [{ title := "t", start_s := 0, stop_s := 10 }] =
      [{ clip_number := 1, title := "t", duration := 10 }] ∧
    createClips 10 120 [{ title := "t", start_s := 0, stop_s := 120 }] =
      [{ clip_number := 1, title := "t", duration := 120 }] :=
  ⟨((duration_bounds_inclusive 0 9 "t" (fun _ _ => none)).1 (by norm_num)).1,
   ((duration_bounds_inclusive 0 121 "t" (fun _ _ => none)).2.1 (by norm_num)).1,
   ((duration_bounds_inclusive 0 10 "t" (fun _ _ => none)).2.2.1 (by norm_num)).2,
   ((duration_bounds_inclusive 0 120 "t" (fun _ _ => none)).2.2.2 (by norm_num)).2⟩

/-- Claim C5: aspect-ratio crop computation.  For a media info whose
`aspect_ratio` exceeds the target ratio (and is not within 0.01 of it),
`calculate_crop_filter` produces a horizontal center crop of width
`floor(height * targetRatio)` at x-offset `floor((width - newWidth)/2)`
followed by a scale to the target canvas; within 0.01 of the target the
filter is a scale with no crop; and for 1920x1080 against `"9:16"` the
crop is 607 wide at x-offset 656 followed by a scale to 1080x1920. -/
theorem crop_filter_center_crop (w h : ℤ) (ar : ℚ) (label : String)
    (tr : ℚ) (tw th : ℤ) (hparse : parseTarget label = some (tr, tw, th)) :
    (|ar - tr| < 1/100 →
      calculate_crop_filter { width := w, height := h, aspect := ar } label =
        .ok (.scaleTo tw th)) ∧
    (¬ (|ar - tr| < 1/100) → ar > tr → 0 ≤ h →
      calculate_crop_filter { width := w, height := h, aspect := ar } label =
        .ok (.cropThenScale ⌊(h : ℚ) * tr⌋ h ((w - ⌊(h : ℚ) * tr⌋).fdiv 2) 0 tw th)) ∧
    calculate_crop_filter { width := 1920, height := 1080, aspect := 16/9 } "9:16" =
      .ok (.cropThenScale 607 1080 656 0 1080 1920) := by
  obtain ⟨hlabel, htr⟩ := parseTarget_cases label tr tw th hparse
  refine ⟨?_, ?_, ?_⟩
  · intro hclose
    simp only [calculate_crop_filter, hparse]
    rw [if_neg hlabel, if_pos hclose]
  · intro hclose har hh
    have hnn : (0 : ℚ) ≤ (h : ℚ) * tr :=
      mul_nonneg (by exact_mod_cast hh) htr.le
    simp only [calculate_crop_filter, hparse, pyInt]
    rw [if_neg hlabel, if_neg hclose, if_pos har, if_pos hnn]
  · have hp : parseTarget "9:16" = some (9/16, 1080, 1920) := rfl
    have habs : (1 : ℚ)/100 ≤ |16/9 - 9/16| := by
      rw [abs_of_pos (by norm_num)]
      norm_num
    have hclose : ¬ (|(16 : ℚ)/9 - 9/16| < 1/100) := not_lt.mpr habs
    have hgt : (16 : ℚ)/9 > 9/16 := by norm_num
    have hnn : (0 : ℚ) ≤ ((1080 : ℤ) : ℚ) * (9/16) := by norm_num
    have hfl : ⌊((1080 : ℤ) : ℚ) * (9/16)⌋ = (607 : ℤ) := by norm_num
    simp only [calculate_crop_filter, hp, pyInt]
    rw [if_neg (by decide : ¬ ("9:16" : String) = "original"), if_neg hclose, if_pos hgt,
      if_pos hnn, hfl]
    rfl

/-- Witness for C5: the wider-than-target branch at the concrete
1920x1080 source against the `"9:16"` target. -/
theorem crop_filter_center_crop_witness :
    calculate_crop_filter { width := 1920, height := 1080, aspect := 16/9 } "9:16" =
      .ok (.cropThenScale ⌊((1080 : ℤ) : ℚ) * (9/16)⌋ 1080
        ((1920 - ⌊((1080 : ℤ) : ℚ) * (9/16)⌋).fdiv 2) 0 1080 1920) :=
  (crop_filter_center_crop 1920 1080 (16/9) "9:16" (9/16) 1080 1920 rfl).2.1
    (not_lt.mpr (by rw [abs_of_pos (by norm_num)]; norm_num))
    (by norm_num) (by decide)

/-- Claim C3: caption fan-out isolation.  Over clips with distinct clip
numbers (as the orchestrator produces), the returned mapping has exactly
one entry per clip, keyed by its clip number; a clip whose task raised
maps to an error entry carrying that exception's message, and every
other clip maps to the entry computed from its own task's result alone —
the aggregation is a per-clip map, so no exception propagates and one
clip's failure cannot change a sibling's entry. -/
theorem zapcap_fanout_isolation (clips : List (ℕ × Except String ZapResult))
    (hnd : (clips.map Prod.fst).Nodup) :
    process_clips_with_zapcap_parallel clips =
      clips.map (fun c => (c.1, zapEntryOf c.2)) ∧
    (process_clips_with_zapcap_parallel clips).map Prod.fst = clips.map Prod.fst ∧
    (∀ n msg, (n, Except.error msg) ∈ clips →
      (n, ZapEntry.failure msg) ∈ process_clips_with_zapcap_parallel clips) ∧
    (∀ n r, (n, Except.ok r) ∈ clips → r.success = true →
      (n, ZapEntry.done r.video_id r.task_id r.video_name r.result_file_path
        r.processing_time) ∈ process_clips_with_zapcap_parallel clips) := by
  have hmain : process_clips_with_zapcap_parallel clips =
      clips.map (fun c => (c.1, zapEntryOf c.2)) := by
    unfold process_clips_with_zapcap_parallel
    simpa using foldl_dictInsert_eq_map clips [] hnd (by simp)
  refine ⟨hmain, ?_, ?_, ?_⟩
  · rw [hmain, List.map_map]
    rfl
  · intro n msg hmem
    rw [hmain]
    exact List.mem_map.mpr ⟨(n, .error msg), hmem, rfl⟩
  · intro n r hmem hsucc
    rw [hmain]
    refine List.mem_map.mpr ⟨(n, .ok r), hmem, ?_⟩
    simp [zapEntryOf, hsucc]

/-- Witness for C3: three clips where clip 2's backend call raised; the
mapping keeps clips 1 and 3 successful and records clip 2's message. -/
theorem zapcap_fanout_isolation_witness :
    process_clips_with_zapcap_parallel exampleZapClips =
      [(1, .done "v1" "t1" "c1.mp4" "results/c1.mp4" 12),
       (2, .failure "zapcap upload failed"),
       (3, .done "v3" "t3" "c3.mp4" "results/c3.mp4" 9)] := by
  rw [(zapcap_fanout_isolation exampleZapClips (by decide)).1]
  rfl

/-- Claim C6 counterexample: with the default `max_wait_time = 600` and
`check_interval = 5`, a backend that keeps answering the unrecognized
status "mystery" is re-polled forever.  After 130 polls — wall-clock 645
seconds, well past the 600-second timeout — the loop is still running,
and no number of further polls produces an outcome: the unknown-status
arm (`zapcap.py:289-291`) sleeps and loops without the timeout check, so
the claim's "raises a timeout error once the elapsed wall-clock time
exceeds max_wait_time" fails for this response sequence. -/
theorem wait_unknown_status_never_times_out :
    waitRun (fun _ => { status := "mystery", errMsg := none }) 600 5 130 0 0 = none ∧
    ¬ ∃ fuel o, waitRun (fun _ => { status := "mystery", errMsg := none }) 600 5
        fuel 0 0 = some o := by
  refine ⟨waitRun_unknown_forever 600 5 130 0 0, ?_⟩
  rintro ⟨fuel, o, h⟩
  rw [waitRun_unknown_forever] at h
  exact Option.noConfusion h

/-- Claim C6 (amended): for every response sequence whose statuses all
lie in the recognized set {completed, failed, processing, pending,
transcribing}, the poll loop terminates — returning on `completed`,
raising on `failed`, or raising the timeout error — within
`max_wait/check_interval + 2` polls on the fixed check interval; a
response with any other status is re-polled indefinitely with no
timeout check. -/
theorem wait_recognized_status_terminates (responses : ℕ → StatusData)
    (max_wait check_interval : ℕ) (hci : 0 < check_interval)
    (hrec : ∀ k, (responses k).status = "completed" ∨ (responses k).status = "failed" ∨
      inProgressStatuses.contains (responses k).status = true) :
    ∃ o, waitRun responses max_wait check_interval
      (max_wait / check_interval + 2) 0 0 = some o := by
  have harith : max_wait < 0 + (max_wait / check_interval + 1) * check_interval := by
    have hmod : max_wait % check_interval < check_interval := Nat.mod_lt _ hci
    have hdm : check_interval * (max_wait / check_interval) + max_wait % check_interval
        = max_wait := Nat.div_add_mod _ _
    calc max_wait
        = check_interval * (max_wait / check_interval) + max_wait % check_interval :=
          hdm.symm
      _ < check_interval * (max_wait / check_interval) + check_interval :=
          Nat.add_lt_add_left hmod _
      _ = 0 + (max_wait / check_interval + 1) * check_interval := by ring
  have h := waitRun_terminates_aux responses max_wait check_interval hrec
    (max_wait / check_interval + 1) 0 0 harith
  exact Option.isSome_iff_exists.mp h

/-- Witness for C6 (amended) at a concrete input: a backend that answers
`completed` at once, with the default timeout 600 and interval 5. -/
theorem wait_recognized_status_terminates_witness :
    ∃ o, waitRun (fun _ => { status := "completed", errMsg := none }) 600 5 122 0 0 =
      some o :=
  wait_recognized_status_terminates (fun _ => { status := "completed", errMsg := none })
    600 5 (by decide) (fun _ => Or.inl rfl)

/-- Claim C7 counterexample: candidates of durations 15, 9, 15 against
the default bounds [10, 120].  The middle candidate is rejected, and the
two created clips carry ordinals 1 and 3 (`clip_number = i + 1` over the
candidate index, `auto_clipper.py:295-316`) — not the contiguous 1, 2
the claim requires for k = 2 accepted candidates. -/
theorem clip_ordinals_gap :
    (createClips 10 120
      [{ title := "a", start_s := 0, stop_s := 15 },
       { title := "b", start_s := 0, stop_s := 9 },
       { title := "c", start_s := 0, stop_s := 15 }]).map (fun c => c.clip_number) =
      [1, 3] ∧
    ¬ ((createClips 10 120
      [{ title := "a", start_s := 0, stop_s := 15 },
       { title := "b", start_s := 0, stop_s := 9 },
       { title := "c", start_s := 0, stop_s := 15 }]).map (fun c => c.clip_number) =
      [1, 2]) := by
  have g15 : durationOutOfRange 10 120 (15 : ℚ) = false := by
    simp only [durationOutOfRange, Bool.or_eq_false_iff, decide_eq_false_iff_not]
    constructor <;> norm_num
  have g9 : durationOutOfRange 10 120 (9 : ℚ) = true := by
    simp only [durationOutOfRange, Bool.or_eq_true, decide_eq_true_eq]
    exact Or.inl (by norm_num)
  have heval : (createClips 10 120
      [{ title := "a", start_s := 0, stop_s := 15 },
       { title := "b", start_s := 0, stop_s := 9 },
       { title := "c", start_s := 0, stop_s := 15 }]).map (fun c => c.clip_number) =
      [1, 3] := by
    simp [createClips, createClipsFrom, g15, g9]
  exact ⟨heval, by rw [heval]; decide⟩

/-- Claim C7 (amended): rendered-clip ordinals equal one plus the clip's
0-based position in the candidate list, so rejected candidates leave
gaps: the ordinals are strictly increasing, each accepted clip copies the
title and duration of the candidate at its position, the ordinals are the
contiguous range 1..n exactly when no candidate is rejected, and the
caption fan-out update keeps every clip's ordinal unchanged regardless of
fan-out results. -/
theorem clip_ordinals_positional (min_d max_d : ℚ) (segs : List Candidate)
    (zr : List (ℕ × ZapEntry)) :
    (∀ c ∈ createClips min_d max_d segs, ∃ k, k < segs.length ∧
      c.clip_number = k + 1 ∧
      durationOutOfRange min_d max_d
        ((segs.getD k { title := "", start_s := 0, stop_s := 0 }).stop_s -
         (segs.getD k { title := "", start_s := 0, stop_s := 0 }).start_s) = false ∧
      c.title = (segs.getD k { title := "", start_s := 0, stop_s := 0 }).title ∧
      c.duration = (segs.getD k { title := "", start_s := 0, stop_s := 0 }).stop_s -
        (segs.getD k { title := "", start_s := 0, stop_s := 0 }).start_s) ∧
    ((createClips min_d max_d segs).map (fun c => c.clip_number)).Pairwise (· < ·) ∧
    ((∀ c ∈ segs, durationOutOfRange min_d max_d (c.stop_s - c.start_s) = false) →
      (createClips min_d max_d segs).map (fun c => c.clip_number) =
        List.range' 1 segs.length) ∧
    (updateClipsWithZapcap (createClips min_d max_d segs) zr).map
        (fun c => c.clip_number) =
      (createClips min_d max_d segs).map (fun c => c.clip_number) := by
  refine ⟨?_, createClipsFrom_pairwise min_d max_d segs 0, ?_,
    updateClips_numbers _ zr⟩
  · intro c hc
    obtain ⟨k, hk, hnum, hgate, htitle, hdur⟩ :=
      createClipsFrom_mem min_d max_d segs 0 c hc
    exact ⟨k, hk, by omega, hgate, htitle, hdur⟩
  · intro hall
    exact createClipsFrom_all_accepted min_d max_d segs 0 hall

/-- Witness for C7 (amended): two accepted candidates produce the
contiguous ordinals 1, 2. -/
theorem clip_ordinals_positional_witness :
    (createClips 10 120
      [{ title := "a", start_s := 0, stop_s := 15 },
       { title := "b", start_s := 0, stop_s := 20 }]).map (fun c => c.clip_number) =
      List.range' 1 2 := by
  apply (clip_ordinals_positional 10 120
    [{ title := "a", start_s := 0, stop_s := 15 },
     { title := "b", start_s := 0, stop_s := 20 }] []).2.2.1
  intro c hc
  rcases List.mem_cons.mp hc with rfl | hc2
  · simp only [durationOutOfRange, Bool.or_eq_false_iff, decide_eq_false_iff_not]
    constructor <;> norm_num
  · rcases List.mem_cons.mp hc2 with rfl | hc3
    · simp only [durationOutOfRange, Bool.or_eq_false_iff, decide_eq_false_iff_not]
      constructor <;> norm_num
    · simp at hc3

/-- Claim C10: `get_video_info` raises `VideoProcessingError` exactly
when the probe output has no video stream; when a video stream is present
but lacks `width` or `height`, the code silently substitutes 1920/1080,
and a zero height yields `aspect_ratio = 16/9` — so a `MediaInfo` with
fabricated dimensions is returned without error for any probe output
whose video stream carries no dimensions. -/
theorem probe_fallback_dimensions (p : ProbeOutput) :
    ((∀ s ∈ p.streams, s.codec_type ≠ "video") ↔
      get_video_info p = .error "No video stream found in file") ∧
    (∀ vs, p.streams.find? (fun s => s.codec_type == "video") = some vs →
      ∃ info, get_video_info p = .ok info ∧
        (vs.width = none → info.width = 1920) ∧
        (vs.height = none → info.height = 1080) ∧
        (vs.height = some 0 → info.aspect = 16/9)) := by
  constructor
  · constructor
    · intro hall
      have hfind : p.streams.find? (fun s => s.codec_type == "video") = none := by
        rw [List.find?_eq_none]
        intro s hs
        simpa using hall s hs
      simp [get_video_info, hfind]
    · intro herr s hs hvid
      have hex : ∃ x, p.streams.find? (fun s => s.codec_type == "video") = some x := by
        rw [← Option.isSome_iff_exists, List.find?_isSome]
        exact ⟨s, hs, by simp [hvid]⟩
      obtain ⟨vs, hvs⟩ := hex
      simp [get_video_info, hvs] at herr
  · intro vs hvs
    have hget : get_video_info p = .ok
        { duration := p.format.duration.getD 0
          width := vs.width.getD 1920
          height := vs.height.getD 1080
          aspect :=
            if vs.height.getD 1080 > 0 then
              ((vs.width.getD 1920 : ℤ) : ℚ) / ((vs.height.getD 1080 : ℤ) : ℚ)
            else 16/9
          codec := vs.codec_name.getD "unknown"
          bitrate := p.format.bit_rate.getD 0
          has_audio := p.streams.any (fun s => s.codec_type == "audio")
          file_size := p.format.size.getD 0 } := by
      simp [get_video_info, hvs]
    refine ⟨_, hget, ?_, ?_, ?_⟩
    · intro hw
      simp [hw]
    · intro hh
      simp [hh]
    · intro hh
      simp [hh]

/-- Witness for C10: a probe document whose only stream is a
dimensionless video stream yields a fabricated 1920x1080 `MediaInfo`
without error. -/
theorem probe_fallback_dimensions_witness :
    ∃ info, get_video_info exampleProbe = .ok info ∧
      info.width = 1920 ∧ info.height = 1080 := by
  obtain ⟨info, hok, hw, hh, -⟩ := (probe_fallback_dimensions exampleProbe).2
    { codec_type := "video", width := none, height := none, codec_name := none } rfl
  exact ⟨info, hok, hw rfl, hh rfl⟩

end Clipper
